import Mathlib

/-!
Shallow embedding of the DesktopGIS parse/model/serialize core, taken from
`src/DesktopGIS/src/main.py` (the version exercised by the test suite) and
`src/DesktopGIS/desktopgis/gis_app.py` (an older copy of the same window
class whose parser dispatch differs on polygons).

Modelling conventions:
* Python strings are embedded as `List Char`; `str.split()` (split on runs
  of whitespace, dropping empty pieces) and `str.strip()` are embedded on
  character lists.
* Python floats are embedded as exact rationals.  `float(tok)` is embedded
  by `pyFloatCh` on the finite-decimal fragment of Python's float-literal
  grammar (optional sign, digits, optional fractional part, optional decimal
  exponent); the `inf`/`nan`/underscore spellings and binary64 rounding are
  outside the model.
* Python's `int(x)` cast on a float (truncation toward zero) is embedded by
  `pyInt` via truncating integer division of the rational's numerator by its
  denominator.
* Qt graphics items are embedded by `SceneItem`.  Only the attributes the
  program later reads back are modelled: the shape with its defining
  coordinates, the pen colour (the save path filters line items on it), the
  z-value (it determines the iteration order of `QGraphicsScene.items()`),
  and the `ItemIsSelectable` / `isSelected` flags (the delete path reads
  them).  Write-only visual attributes (brushes, pen widths, hover-event
  flags) are dropped.
* `QGraphicsScene.items()` returns items in descending stacking order:
  higher z-value first and, among items of equal z-value, the later-added
  item first.  This is pinned down by the repository's own test
  `test_save_file`, which adds a point and then a line and expects the saved
  lines in the order line-before-point.  `sceneItemsTopFirst` embeds this
  order for the two z-values (0 and -1) the program ever uses.
-/

def isWS (c : Char) : Bool := c.isWhitespace

/-- Embedding of Python `str.split()` (no separator argument): accumulate a
current token in `acc` (reversed) and cut at whitespace runs. -/
def tokensAux : List Char → List Char → List (List Char)
  | [], acc => if acc.isEmpty then [] else [acc.reverse]
  | c :: cs, acc =>
    if isWS c then
      if acc.isEmpty then tokensAux cs [] else acc.reverse :: tokensAux cs []
    else tokensAux cs (c :: acc)

def tokensCh (line : List Char) : List (List Char) := tokensAux line []

/-- Embedding of Python `str.strip()`: drop leading and trailing whitespace. -/
def trimCh (cs : List Char) : List Char :=
  ((cs.dropWhile isWS).reverse.dropWhile isWS).reverse

def digitVal (c : Char) : ℕ := c.toNat - 48

/-- Value of a big-endian string of decimal digits. -/
def digitsVal (cs : List Char) : ℕ := cs.foldl (fun a c => 10 * a + digitVal c) 0

/-- Leading sign of a numeric literal: `True` for a consumed minus sign. -/
def stripSign : List Char → Bool × List Char
  | [] => (false, [])
  | c :: cs =>
    if c = '-' then (true, cs) else if c = '+' then (false, cs) else (false, c :: cs)

/-- Signed decimal exponent digits after an `e`/`E` marker. -/
def expDigits? (cs : List Char) : Option ℤ :=
  match stripSign cs with
  | (neg, ds) =>
    if ds ≠ [] ∧ ds.all Char.isDigit then
      some (if neg then -(digitsVal ds : ℤ) else (digitsVal ds : ℤ))
    else none

/-- Exponent part of a float literal; an empty remainder means exponent 0. -/
def expPart? : List Char → Option ℤ
  | [] => some 0
  | c :: cs => if c = 'e' ∨ c = 'E' then expDigits? cs else none

/-- Exact rational value of the literal `sign ds1 . ds2 e exp`: the mantissa
digits scaled by ten to the (exponent minus fraction length). -/
def pyFloatVal (neg : Bool) (ds1 ds2 : List Char) (e : ℤ) : ℚ :=
  let m : ℕ := digitsVal (ds1 ++ ds2)
  let n : ℤ := if neg then -(m : ℤ) else (m : ℤ)
  let s : ℤ := e - ds2.length
  if 0 ≤ s then ((n * 10 ^ s.toNat : ℤ) : ℚ) else mkRat n (10 ^ (-s).toNat)

/-- Embedding of Python `float(tok)` on the finite-decimal literal grammar;
`none` embeds the `ValueError` raised on a malformed token. -/
def pyFloatCh (tok : List Char) : Option ℚ :=
  match stripSign tok with
  | (neg, cs) =>
    let ds1 := cs.takeWhile Char.isDigit
    let r1 := cs.dropWhile Char.isDigit
    match r1 with
    | '.' :: r2 =>
      let ds2 := r2.takeWhile Char.isDigit
      let r3 := r2.dropWhile Char.isDigit
      if ds1 = [] ∧ ds2 = [] then none
      else (expPart? r3).map (pyFloatVal neg ds1 ds2)
    | _ => if ds1 = [] then none else (expPart? r1).map (pyFloatVal neg ds1 [])

/-- Embedding of `list(map(float, coords))` inside the `try` block of
`parse_data`: `none` when any token raises `ValueError`. -/
def floats? : List (List Char) → Option (List ℚ)
  | [] => some []
  | t :: ts =>
    match pyFloatCh t, floats? ts with
    | some v, some vs => some (v :: vs)
    | _, _ => none

/-- Pen colours the program ever constructs or compares. -/
inductive PenColor
  | red
  | blue
  | green
  | lightGray
deriving DecidableEq

/-- Embedding of the Qt graphics items the program puts into the scene. -/
inductive SceneItem
  | ellipse (x y w h : ℚ) (pen : PenColor) (selectable selected : Bool)
  | lineItem (x1 y1 x2 y2 : ℚ) (pen : PenColor) (z : ℤ) (selectable selected : Bool)
  | polygonItem (pts : List (ℚ × ℚ)) (pen : PenColor) (selectable selected : Bool)
deriving DecidableEq

/-- Embedding of `draw_point`: `QGraphicsEllipseItem(x - 5, y - 5, 10, 10)`
with a red pen, made selectable by the `configure_graphics_item` wrapper
(gis_app.py: by `_configureSelectableItem`). -/
def draw_point_item (x y : ℚ) : SceneItem :=
  .ellipse (x - 5) (y - 5) 10 10 .red true false

/-- Embedding of `draw_line`: `QGraphicsLineItem(x1, y1, x2, y2)` with a blue
pen, selectable, default z-value 0. -/
def draw_line_item (x1 y1 x2 y2 : ℚ) : SceneItem :=
  .lineItem x1 y1 x2 y2 .blue 0 true false

/-- Embedding of `draw_polygon` applied to an already-paired vertex list:
`QGraphicsPolygonItem` with a green pen, selectable. -/
def draw_polygon_item (pts : List (ℚ × ℚ)) : SceneItem :=
  .polygonItem pts .green true false

/-- Embedding of `_draw_grid_line`: a light-gray `QGraphicsLineItem` with
z-value -1.  The code never sets `ItemIsSelectable` on it, and Qt items are
not selectable by default. -/
def grid_line_item (x1 y1 x2 y2 : ℚ) : SceneItem :=
  .lineItem x1 y1 x2 y2 .lightGray (-1) false false

/-- Pairing of a flat coordinate list, as done by the comprehension
`[QPointF(coords[i], coords[i + 1]) for i in range(0, len(coords), 2)]`
on a list of even length (on odd length the comprehension raises
`IndexError`; see `pairUp?`). -/
def pairUpT : List ℚ → List (ℚ × ℚ)
  | x :: y :: r => (x, y) :: pairUpT r
  | _ => []

/-- Embedding of the pairing comprehension of `drawPolygon` in gis_app.py:
on an odd-length list the access `coords[i + 1]` is out of range and raises
`IndexError`, embedded as `none`. -/
def pairUp? (l : List ℚ) : Option (List (ℚ × ℚ)) :=
  if l.length % 2 = 0 then some (pairUpT l) else none

/-- Reason of a per-line parse diagnostic (spec: ParseDiagnostic.reason). -/
inductive Reason
  | nonNumericToken
  | invalidTokenCount
deriving DecidableEq

/-- Per-line parse diagnostic.  The code appends a Russian message string
containing `line.strip()`; the embedding keeps the branch that produced the
message as `reason` and the embedded `line.strip()` as `text`. -/
structure Diag where
  reason : Reason
  text : List Char
deriving DecidableEq

/-- State threaded through a parse: the scene items appended so far (the
shape store), the accumulated messages, and the `all_data_valid` flag. -/
structure PState where
  items : List SceneItem
  msgs : List Diag
  allValid : Bool
deriving DecidableEq

/-- Embedding of one loop iteration of `GISApp.parse_data` (src/main.py):
split the line, convert all tokens to float, then dispatch on the token
count with `match len(coords)`: 2 draws a point, 4 draws a line, even counts
of at least 6 draw a polygon, anything else appends a diagnostic. -/
def parseLineMain (st : PState) (line : List Char) : PState :=
  match floats? (tokensCh line) with
  | none =>
    { st with msgs := st.msgs ++ [⟨.nonNumericToken, trimCh line⟩], allValid := false }
  | some coords =>
    match coords with
    | [x, y] => { st with items := st.items ++ [draw_point_item x y] }
    | [x1, y1, x2, y2] => { st with items := st.items ++ [draw_line_item x1 y1 x2 y2] }
    | _ =>
      if 6 ≤ coords.length ∧ coords.length % 2 = 0 then
        { st with items := st.items ++ [draw_polygon_item (pairUpT coords)] }
      else
        { st with msgs := st.msgs ++ [⟨.invalidTokenCount, trimCh line⟩], allValid := false }

/-- The whole loop of `parse_data` (src/main.py) over the input lines. -/
def parseMainAll (st : PState) (lines : List (List Char)) : PState :=
  lines.foldl parseLineMain st

/-- Embedding of `GISApp.parse_data` (src/main.py): runs the loop and returns
`not all_data_valid` (the caller binds it as `partial_success`). -/
def parse_data_main (lines : List (List Char)) (st : PState) : PState × Bool :=
  let st' := parseMainAll st lines
  (st', !st'.allValid)

/-- Embedding of one loop iteration of `GISApp.parseData`
(desktopgis/gis_app.py).  The dispatch differs from src/main.py: the polygon
arm is `elif len(coords) >= 6` with no evenness check, so an odd count of at
least 7 reaches `drawPolygon`, whose pairing comprehension raises
`IndexError` (`none`); nothing in `parseData` catches it. -/
def parseLineGis (st : PState) (line : List Char) : Option PState :=
  match floats? (tokensCh line) with
  | none =>
    some { st with msgs := st.msgs ++ [⟨.nonNumericToken, trimCh line⟩], allValid := false }
  | some coords =>
    match coords with
    | [x, y] => some { st with items := st.items ++ [draw_point_item x y] }
    | [x1, y1, x2, y2] => some { st with items := st.items ++ [draw_line_item x1 y1 x2 y2] }
    | _ =>
      if 6 ≤ coords.length then
        (pairUp? coords).map fun pts => { st with items := st.items ++ [draw_polygon_item pts] }
      else
        some { st with msgs := st.msgs ++ [⟨.invalidTokenCount, trimCh line⟩], allValid := false }

/-- The loop of `parseData` (desktopgis/gis_app.py); an uncaught `IndexError`
aborts the loop, so the remaining lines are never processed. -/
def parseGisAll (st : PState) : List (List Char) → Option PState
  | [] => some st
  | l :: ls =>
    match parseLineGis st l with
    | none => none
    | some st' => parseGisAll st' ls

/-- Embedding of Python `int(x)` on a float value: truncation toward zero,
computed as truncating division of the numerator by the denominator. -/
def pyInt (q : ℚ) : ℤ := q.num.tdiv q.den

/-- Fuel-based big-endian decimal digits of a natural number (the fuel `n`
itself always suffices since `n / 10 < n` for positive `n`). -/
def natCharsAux : ℕ → ℕ → List Char
  | 0, _ => []
  | _ + 1, 0 => []
  | fuel + 1, n + 1 =>
    natCharsAux fuel ((n + 1) / 10) ++ [Char.ofNat (48 + (n + 1) % 10)]

/-- Decimal rendering of a natural number. -/
def natChars (n : ℕ) : List Char := if n = 0 then ['0'] else natCharsAux n n

/-- Embedding of Python's decimal rendering of an `int`, as produced by the
f-strings `f"{int(x)} {int(y)}"` of the save path. -/
def intChars (i : ℤ) : List Char :=
  if i < 0 then '-' :: natChars i.natAbs else natChars i.toNat

/-- Join token strings with single spaces, as `" ".join(...)` and the space
separators inside the save-path f-strings do. -/
def joinSp : List (List Char) → List Char
  | [] => []
  | [t] => t
  | t :: ts => t ++ ' ' :: joinSp ts

/-- Serialized pair `f"{int(point.x())} {int(point.y())}"` of one polygon
vertex. -/
def pairChars (p : ℚ × ℚ) : List Char :=
  joinSp [intChars (pyInt p.1), intChars (pyInt p.2)]

/-- Embedding of the per-item body of `GISApp.save_file` (src/main.py; the
`saveFile` of gis_app.py writes the same lines): an ellipse is saved as its
centre `rect().x() + rect().width() / 2`, `rect().y() + rect().height() / 2`;
a line item is saved as its four endpoint coordinates unless its pen colour
is the light-gray of the grid; a polygon item is saved as its space-joined
vertex pairs.  `none` embeds "this item contributes no output line". -/
def itemLine? : SceneItem → Option (List Char)
  | .ellipse x y w h _ _ _ =>
    some (joinSp [intChars (pyInt (x + w / 2)), intChars (pyInt (y + h / 2))])
  | .lineItem x1 y1 x2 y2 pen _ _ _ =>
    if pen = .lightGray then none
    else
      some (joinSp [intChars (pyInt x1), intChars (pyInt y1),
                    intChars (pyInt x2), intChars (pyInt y2)])
  | .polygonItem pts _ _ _ => some (joinSp (pts.map pairChars))

/-- The z-value of a scene item (only line items ever get a non-default one). -/
def zOf : SceneItem → ℤ
  | .lineItem _ _ _ _ _ z _ _ => z
  | _ => 0

/-- Embedding of `QGraphicsScene.items()` in descending stacking order for
the two z-values the program uses: all z-value-0 items, latest first, then
all z-value-(-1) grid lines, latest first.  The reverse-insertion order among
equal z-values is pinned by `test_save_file` in tests/test_gis_app.py. -/
def sceneItemsTopFirst (scene : List SceneItem) : List SceneItem :=
  (scene.filter fun i => zOf i = 0).reverse ++ (scene.filter fun i => zOf i = -1).reverse

/-- Embedding of the data-collection loop of `GISApp.save_file`: one output
line per item that matches a saving case, in `scene.items()` order. -/
def save_file_lines (scene : List SceneItem) : List (List Char) :=
  (sceneItemsTopFirst scene).filterMap itemLine?

/-- The tagged geometry record of the specification's data model. -/
inductive GRecord
  | point (x y : ℚ)
  | segment (x1 y1 x2 y2 : ℚ)
  | polygon (verts : List (ℚ × ℚ))
deriving DecidableEq

/-- The scene item the program creates for a record (the store is realised
as the scene's geometry items). -/
def itemOfRec : GRecord → SceneItem
  | .point x y => draw_point_item x y
  | .segment x1 y1 x2 y2 => draw_line_item x1 y1 x2 y2
  | .polygon verts => draw_polygon_item verts

/-- The scene backing a shape store holding exactly the given records, in
store (insertion) order. -/
def storeScene (store : List GRecord) : List SceneItem := store.map itemOfRec

/-- The coordinates of a record, in line order. -/
def recCoords : GRecord → List ℚ
  | .point x y => [x, y]
  | .segment x1 y1 x2 y2 => [x1, y1, x2, y2]
  | .polygon verts => verts.foldr (fun p acc => p.1 :: p.2 :: acc) []

/-- Truncation toward zero, stated as in the specification: the floor for
nonnegative values, the ceiling for negative ones. -/
def truncTowardZero (q : ℚ) : ℤ := if 0 ≤ q then ⌊q⌋ else ⌈q⌉

/-- Modelled from the spec: the serialized line format claimed in §4.2 -
each coordinate rendered as its truncation toward zero, a point as
`"x y"`, a segment as `"x1 y1 x2 y2"`, a polygon as its space-joined
`"xi yi"` pairs in vertex order. -/
def recLineSpec : GRecord → List Char
  | .point x y => joinSp [intChars (truncTowardZero x), intChars (truncTowardZero y)]
  | .segment x1 y1 x2 y2 =>
    joinSp [intChars (truncTowardZero x1), intChars (truncTowardZero y1),
            intChars (truncTowardZero x2), intChars (truncTowardZero y2)]
  | .polygon verts =>
    joinSp (verts.map fun p =>
      joinSp [intChars (truncTowardZero p.1), intChars (truncTowardZero p.2)])

/-- Selectable flag of an item. -/
def selectableOf : SceneItem → Bool
  | .ellipse _ _ _ _ _ s _ => s
  | .lineItem _ _ _ _ _ _ s _ => s
  | .polygonItem _ _ s _ => s

/-- Selected flag of an item. -/
def selectedOf : SceneItem → Bool
  | .ellipse _ _ _ _ _ _ s => s
  | .lineItem _ _ _ _ _ _ _ s => s
  | .polygonItem _ _ _ s => s

/-- An item with its selected flag replaced (the user toggling selection in
the view; Qt silently refuses to select a non-selectable item, which is the
`QtSelectionInv` hypothesis below). -/
def setSelected : SceneItem → Bool → SceneItem
  | .ellipse x y w h p sel _, b => .ellipse x y w h p sel b
  | .lineItem x1 y1 x2 y2 p z sel _, b => .lineItem x1 y1 x2 y2 p z sel b
  | .polygonItem pts p sel _, b => .polygonItem pts p sel b

/-- A scene item some geometry record put there: the image of a draw call,
with any later selection state. -/
def IsGeomItem (i : SceneItem) : Prop := ∃ r b, i = setSelected (itemOfRec r) b

/-- A scene item the grid overlay put there, with any later selection state
(Qt never actually selects it, see `QtSelectionInv`). -/
def IsGridItem (i : SceneItem) : Prop :=
  ∃ x1 y1 x2 y2 b, i = setSelected (grid_line_item x1 y1 x2 y2) b

/-- Qt's selection invariant: an item reports `isSelected` only if its
`ItemIsSelectable` flag is set. -/
def QtSelectionInv (scene : List SceneItem) : Prop :=
  ∀ i ∈ scene, selectedOf i = true → selectableOf i = true

/-- Embedding of the Delete-key branch of `GISApp.keyPressEvent`: every item
of `scene.selectedItems()` is removed from the scene. -/
def deleteSelected (scene : List SceneItem) : List SceneItem :=
  scene.filter fun i => !selectedOf i

/-- Embedding of `GISApp.draw_grid`: vertical grid lines at x = 0, 20, ...,
780 and horizontal ones at y = 0, 20, ..., 580. -/
def draw_grid_items : List SceneItem :=
  ((List.range 40).map fun k => grid_line_item (20 * k) 0 (20 * k) 600) ++
    ((List.range 30).map fun k => grid_line_item 0 (20 * k) 800 (20 * k))

/-- Status messages the load path can surface (the Russian strings of the
code, abstracted to their branch). -/
inductive StatusMsg
  | ioError
  | emptyFile
  | readOk
  | readWarnings (msgs : List Diag)
deriving DecidableEq

/-- The window state the load path can touch: the scene (store plus
displayed content) and the status bar. -/
structure AppState where
  scene : List SceneItem
  status : Option StatusMsg
deriving DecidableEq

/-- Embedding of `GISApp.load_file` (src/main.py; `loadFile` of gis_app.py
behaves identically on these paths): a failed read (`IOError`/`OSError`,
embedded as `Except.error`) or an empty line list returns before anything
touches the scene; otherwise the scene is cleared, the grid redrawn, the
lines parsed into it, and a success-or-warnings message shown. -/
def load_file (input : Except Unit (List (List Char))) (st : AppState) : AppState :=
  match input with
  | .error _ => { st with status := some .ioError }
  | .ok lines =>
    if lines = [] then { st with status := some .emptyFile }
    else
      let p := parseMainAll ⟨draw_grid_items, [], true⟩ lines
      { scene := p.items,
        status := some (if !p.allValid then .readWarnings p.msgs else .readOk) }

/-- Per-coordinate serialized token. -/
def coordTok (q : ℚ) : List Char := intChars (truncTowardZero q)

/-- Well-formedness of a record per the spec's data model: a polygon has at
least 3 vertices (guaranteed by construction, since only lines with at least
6 numeric tokens produce polygons). -/
def polyWF : GRecord → Prop
  | .polygon verts => 3 ≤ verts.length
  | _ => True

instance : DecidablePred polyWF := fun r =>
  match r with
  | .point _ _ => isTrue trivial
  | .segment _ _ _ _ => isTrue trivial
  | .polygon verts => inferInstanceAs (Decidable (3 ≤ verts.length))

/-- Invariant relating `all_data_valid` to the accumulated messages. -/
def validInv (st : PState) : Prop := st.allValid = true ↔ st.msgs = []

/-- The save path's grid test: a line item whose pen colour is the grid's
light gray (`item.pen().color() != Qt.lightGray`). -/
def isGridPen : SceneItem → Bool
  | .lineItem _ _ _ _ pen _ _ _ => pen == .lightGray
  | _ => false

/-- The empty parser start state (empty scene, fresh message list, the
`all_data_valid = True` initialisation). -/
def pst0 : PState := ⟨[], [], true⟩

/-- A record all of whose coordinates are integer-valued rationals. -/
def intRec (r : GRecord) : Prop := ∀ q ∈ recCoords r, q.den = 1

instance : DecidablePred intRec := fun r =>
  inferInstanceAs (Decidable (∀ q ∈ recCoords r, q.den = 1))

/-- The two-record store of the repository's own `test_save_file`. -/
def storeTwo : List GRecord := [.point 100 100, .segment 200 200 300 300]

/-- The round-trip counterexample store: two distinct integer records. -/
def storeCex : List GRecord := [.point 1 2, .segment 3 4 5 6]

/-! Facts about decimal digit characters and the integer renderer. -/

theorem digitChar_facts (d : ℕ) (hd : d < 10) :
    (Char.ofNat (48 + d)).isDigit = true ∧ isWS (Char.ofNat (48 + d)) = false ∧
      digitVal (Char.ofNat (48 + d)) = d ∧ Char.ofNat (48 + d) ≠ '-' ∧
      Char.ofNat (48 + d) ≠ '+' := by
  interval_cases d <;> exact ⟨by decide, by decide, by decide, by decide, by decide⟩

theorem digitsVal_append (xs : List Char) (c : Char) :
    digitsVal (xs ++ [c]) = 10 * digitsVal xs + digitVal c := by
  simp [digitsVal, List.foldl_append]

theorem natCharsAux_zero (fuel : ℕ) : natCharsAux fuel 0 = [] := by
  cases fuel <;> rfl

theorem natCharsAux_spec (fuel n : ℕ) (hn : 0 < n) (hf : n ≤ fuel) :
    digitsVal (natCharsAux fuel n) = n ∧ natCharsAux fuel n ≠ [] ∧
      ∀ c ∈ natCharsAux fuel n,
        c.isDigit = true ∧ isWS c = false ∧ c ≠ '-' ∧ c ≠ '+' := by
  induction fuel generalizing n with
  | zero => omega
  | succ fuel ih =>
    obtain ⟨m, rfl⟩ : ∃ m, n = m + 1 := ⟨n - 1, by omega⟩
    have hmod : (m + 1) % 10 < 10 := Nat.mod_lt _ (by norm_num)
    obtain ⟨hdig, hws, hval, hm, hp⟩ := digitChar_facts _ hmod
    have hun : natCharsAux (fuel + 1) (m + 1) =
        natCharsAux fuel ((m + 1) / 10) ++ [Char.ofNat (48 + (m + 1) % 10)] := rfl
    rw [hun]
    by_cases hq : (m + 1) / 10 = 0
    · rw [hq, natCharsAux_zero]
      refine ⟨?_, by simp, ?_⟩
      · rw [digitsVal_append, hval]
        have h0 : digitsVal ([] : List Char) = 0 := rfl
        omega
      · intro c hc
        simp at hc
        subst hc
        exact ⟨hdig, hws, hm, hp⟩
    · have hlt : (m + 1) / 10 ≤ fuel := by
        have := Nat.div_lt_self (Nat.succ_pos m) (by norm_num : 1 < 10)
        omega
      obtain ⟨ihv, ihne, ihall⟩ := ih ((m + 1) / 10) (Nat.pos_of_ne_zero hq) hlt
      refine ⟨?_, by simp, ?_⟩
      · rw [digitsVal_append, hval, ihv]
        omega
      · intro c hc
        rcases List.mem_append.mp hc with h | h
        · exact ihall c h
        · simp at h
          subst h
          exact ⟨hdig, hws, hm, hp⟩

theorem natChars_spec (n : ℕ) :
    digitsVal (natChars n) = n ∧ natChars n ≠ [] ∧
      ∀ c ∈ natChars n,
        c.isDigit = true ∧ isWS c = false ∧ c ≠ '-' ∧ c ≠ '+' := by
  by_cases h : n = 0
  · subst h
    exact ⟨by decide, by decide, by decide⟩
  · rw [natChars, if_neg h]
    exact natCharsAux_spec n n (Nat.pos_of_ne_zero h) le_rfl

theorem stripSign_nosign (c : Char) (cs : List Char) (h1 : c ≠ '-') (h2 : c ≠ '+') :
    stripSign (c :: cs) = (false, c :: cs) := by
  simp [stripSign, h1, h2]

theorem pyFloatVal_digits (neg : Bool) (ds : List Char) :
    pyFloatVal neg ds [] 0 =
      ((if neg then -(digitsVal ds : ℤ) else (digitsVal ds : ℤ) : ℤ) : ℚ) := by
  simp [pyFloatVal]

theorem pyFloatCh_digits (ds : List Char) (hne : ds ≠ [])
    (hall : ∀ c ∈ ds, c.isDigit = true ∧ isWS c = false ∧ c ≠ '-' ∧ c ≠ '+') :
    pyFloatCh ds = some ((digitsVal ds : ℤ) : ℚ) ∧
      pyFloatCh ('-' :: ds) = some ((-(digitsVal ds : ℤ) : ℤ) : ℚ) := by
  have htake : ds.takeWhile Char.isDigit = ds :=
    List.takeWhile_eq_self_iff.mpr fun c hc => (hall c hc).1
  have hdrop : ds.dropWhile Char.isDigit = [] :=
    List.dropWhile_eq_nil_iff.mpr fun c hc => (hall c hc).1
  obtain ⟨c, cs, rfl⟩ : ∃ c cs, ds = c :: cs := by
    cases ds with
    | nil => exact absurd rfl hne
    | cons c cs => exact ⟨c, cs, rfl⟩
  obtain ⟨-, -, hm, hp⟩ := hall c (List.mem_cons_self c cs)
  constructor
  · rw [pyFloatCh, stripSign_nosign c cs hm hp]
    simp only [htake, hdrop]
    rw [if_neg (by simp : ¬(c :: cs = []))]
    simp [expPart?, pyFloatVal_digits]
  · rw [pyFloatCh]
    have : stripSign ('-' :: c :: cs) = (true, c :: cs) := by simp [stripSign]
    rw [this]
    simp only [htake, hdrop]
    rw [if_neg (by simp : ¬(c :: cs = []))]
    simp [expPart?, pyFloatVal_digits]

theorem intChars_spec (i : ℤ) :
    intChars i ≠ [] ∧ (∀ c ∈ intChars i, isWS c = false) ∧
      pyFloatCh (intChars i) = some ((i : ℤ) : ℚ) := by
  by_cases h : i < 0
  · have hi : intChars i = '-' :: natChars i.natAbs := if_pos h
    obtain ⟨hv, hne, hall⟩ := natChars_spec i.natAbs
    have hall' : ∀ c ∈ natChars i.natAbs,
        c.isDigit = true ∧ isWS c = false ∧ c ≠ '-' ∧ c ≠ '+' := hall
    refine ⟨by simp [hi], ?_, ?_⟩
    · intro c hc
      rw [hi] at hc
      rcases List.mem_cons.mp hc with rfl | hc
      · decide
      · exact (hall c hc).2.1
    · rw [hi, (pyFloatCh_digits _ hne hall').2, hv]
      have : ((i.natAbs : ℤ)) = -i := Int.ofNat_natAbs_of_nonpos (le_of_lt h)
      rw [this]
      norm_num
  · have hi : intChars i = natChars i.toNat := if_neg h
    obtain ⟨hv, hne, hall⟩ := natChars_spec i.toNat
    refine ⟨by simpa [hi] using hne, ?_, ?_⟩
    · intro c hc
      rw [hi] at hc
      exact (hall c hc).2.1
    · rw [hi, (pyFloatCh_digits _ hne hall).1, hv]
      rw [Int.toNat_of_nonneg (not_lt.mp h)]

/-! Facts about splitting and joining with single spaces. -/

theorem tokensAux_nonws (A : List Char) (rest acc : List Char)
    (h : ∀ c ∈ A, isWS c = false) :
    tokensAux (A ++ rest) acc = tokensAux rest (A.reverse ++ acc) := by
  induction A generalizing acc with
  | nil => simp
  | cons c A ih =>
    have hc : isWS c = false := h c (List.mem_cons_self c A)
    have hA : ∀ d ∈ A, isWS d = false := fun d hd => h d (List.mem_cons_of_mem c hd)
    show tokensAux (c :: (A ++ rest)) acc = _
    rw [tokensAux, if_neg (by simp [hc]), ih (c :: acc) hA]
    simp

theorem joinSp_cons (t : List Char) (ts : List (List Char)) (h : ts ≠ []) :
    joinSp (t :: ts) = t ++ ' ' :: joinSp ts := by
  cases ts with
  | nil => exact absurd rfl h
  | cons t' ts' => rfl

theorem tokensCh_joinSp (ts : List (List Char))
    (h : ∀ t ∈ ts, t ≠ [] ∧ ∀ c ∈ t, isWS c = false) :
    tokensCh (joinSp ts) = ts := by
  induction ts with
  | nil => rfl
  | cons t ts ih =>
    obtain ⟨hne, hws⟩ := h t (List.mem_cons_self t ts)
    have hts : ∀ u ∈ ts, u ≠ [] ∧ ∀ c ∈ u, isWS c = false :=
      fun u hu => h u (List.mem_cons_of_mem t hu)
    cases ts with
    | nil =>
      show tokensCh t = [t]
      have : tokensAux (t ++ []) [] = tokensAux [] (t.reverse ++ []) :=
        tokensAux_nonws t [] [] hws
      simp only [List.append_nil] at this
      rw [tokensCh, this, tokensAux]
      simp [List.isEmpty_iff, hne]
    | cons t' ts' =>
      rw [joinSp_cons t (t' :: ts') (by simp), tokensCh,
        tokensAux_nonws t (' ' :: joinSp (t' :: ts')) [] hws]
      simp only [List.append_nil]
      rw [tokensAux, if_pos (by decide)]
      rw [if_neg (by simp [List.isEmpty_iff, hne])]
      simp only [List.reverse_reverse]
      exact congrArg (t :: ·) (ih hts)

theorem joinSp_flatVerts (verts : List (ℚ × ℚ)) (f : ℚ → List Char) :
    joinSp (verts.map fun p => joinSp [f p.1, f p.2]) =
      joinSp ((verts.foldr (fun p acc => p.1 :: p.2 :: acc) []).map f) := by
  induction verts with
  | nil => rfl
  | cons p vs ih =>
    cases vs with
    | nil => rfl
    | cons q vs' =>
      have hfold : List.foldr (fun (p : ℚ × ℚ) acc => p.1 :: p.2 :: acc) [] (p :: q :: vs')
          = p.1 :: p.2 :: List.foldr (fun p acc => p.1 :: p.2 :: acc) [] (q :: vs') := rfl
      have hL : (List.foldr (fun (p : ℚ × ℚ) acc => p.1 :: p.2 :: acc) [] (q :: vs')).map f ≠ [] := by
        show (q.1 :: q.2 :: _).map f ≠ []
        simp
      rw [List.map_cons, joinSp_cons _ _ (by simp), ih, hfold, List.map_cons, List.map_cons,
        joinSp_cons (f p.1)
          (f p.2 :: (List.foldr (fun (p : ℚ × ℚ) acc => p.1 :: p.2 :: acc) [] (q :: vs')).map f)
          (by simp),
        joinSp_cons (f p.2) _ hL]
      have h2 : joinSp [f p.1, f p.2] = f p.1 ++ ' ' :: f p.2 := rfl
      rw [h2]
      simp

/-! The `int()` cast truncates toward zero. -/

theorem pyInt_eq_trunc (q : ℚ) : pyInt q = truncTowardZero q := by
  by_cases h : 0 ≤ q
  · have hnum : 0 ≤ q.num := Rat.num_nonneg.mpr h
    rw [truncTowardZero, if_pos h, Rat.floor_def, pyInt]
    exact Int.tdiv_eq_ediv hnum (by positivity)
  · have hq : q < 0 := lt_of_not_ge h
    rw [truncTowardZero, if_neg h, pyInt]
    have hnum : q.num < 0 := Rat.num_neg.mpr hq
    have h1 : q.num = -(-q.num) := by ring
    rw [h1, Int.neg_tdiv]
    have h2 : (-q.num).tdiv q.den = (-q.num) / q.den :=
      Int.tdiv_eq_ediv (by omega) (by positivity)
    have h5 : (⌊-q⌋ : ℤ) = (-q.num) / q.den := by
      rw [Rat.floor_def, Rat.neg_num, Rat.neg_den]
    rw [h2, ← h5, Int.floor_neg]
    ring

theorem intCast_of_den_one (q : ℚ) (h : q.den = 1) : ((q.num : ℤ) : ℚ) = q := by
  exact_mod_cast (Rat.den_eq_one_iff q).mp h

theorem trunc_of_den_one (q : ℚ) (h : q.den = 1) : truncTowardZero q = q.num := by
  obtain ⟨n, hn⟩ : ∃ n : ℤ, q = (n : ℚ) := ⟨q.num, (intCast_of_den_one q h).symm⟩
  subst hn
  rw [truncTowardZero]
  split <;> simp

/-- Shared helper for the serialization claims: the line the save path emits
for the scene item of a record is exactly the spec-format line. -/
theorem itemLine?_itemOfRec (r : GRecord) :
    itemLine? (itemOfRec r) = some (recLineSpec r) := by
  cases r with
  | point x y =>
    show itemLine? (draw_point_item x y) = _
    rw [draw_point_item]
    show some (joinSp [intChars (pyInt (x - 5 + 10 / 2)), intChars (pyInt (y - 5 + 10 / 2))]) = _
    have hx : x - 5 + 10 / 2 = x := by ring
    have hy : y - 5 + 10 / 2 = y := by ring
    rw [hx, hy, pyInt_eq_trunc, pyInt_eq_trunc]
    rfl
  | segment x1 y1 x2 y2 =>
    show itemLine? (draw_line_item x1 y1 x2 y2) = _
    rw [draw_line_item]
    show (if PenColor.blue = PenColor.lightGray then none else some _) = _
    rw [if_neg (by decide)]
    simp [recLineSpec, pyInt_eq_trunc]
  | polygon verts =>
    show itemLine? (draw_polygon_item verts) = _
    rw [draw_polygon_item]
    show some (joinSp (verts.map pairChars)) = _
    have hfun : pairChars = fun p : ℚ × ℚ =>
        joinSp [intChars (truncTowardZero p.1), intChars (truncTowardZero p.2)] := by
      funext p
      rw [pairChars, pyInt_eq_trunc, pyInt_eq_trunc]
    rw [hfun]
    rfl

theorem recLineSpec_joinSp (r : GRecord) :
    recLineSpec r = joinSp ((recCoords r).map coordTok) := by
  cases r with
  | point x y => rfl
  | segment x1 y1 x2 y2 => rfl
  | polygon verts =>
    show joinSp (verts.map fun p => joinSp [coordTok p.1, coordTok p.2]) = _
    rw [joinSp_flatVerts verts coordTok]
    rfl

theorem coordTok_good (q : ℚ) : coordTok q ≠ [] ∧ ∀ c ∈ coordTok q, isWS c = false := by
  obtain ⟨h1, h2, -⟩ := intChars_spec (truncTowardZero q)
  exact ⟨h1, h2⟩

theorem tokensCh_recLineSpec (r : GRecord) :
    tokensCh (recLineSpec r) = (recCoords r).map coordTok := by
  rw [recLineSpec_joinSp]
  refine tokensCh_joinSp _ ?_
  intro t ht
  obtain ⟨q, -, rfl⟩ := List.mem_map.mp ht
  exact coordTok_good q

theorem floats?_coordTok (qs : List ℚ) (h : ∀ q ∈ qs, q.den = 1) :
    floats? (qs.map coordTok) = some qs := by
  induction qs with
  | nil => rfl
  | cons q qs ih =>
    have hq : q.den = 1 := h q (List.mem_cons_self q qs)
    have hqs := ih fun u hu => h u (List.mem_cons_of_mem q hu)
    have h1 : pyFloatCh (coordTok q) = some q := by
      rw [coordTok, trunc_of_den_one q hq, (intChars_spec q.num).2.2,
        intCast_of_den_one q hq]
    show floats? (coordTok q :: qs.map coordTok) = _
    simp [floats?, h1, hqs]

theorem floats?_recLineSpec (r : GRecord) (h : ∀ q ∈ recCoords r, q.den = 1) :
    floats? (tokensCh (recLineSpec r)) = some (recCoords r) := by
  rw [tokensCh_recLineSpec, floats?_coordTok _ h]

theorem flatVerts_length (verts : List (ℚ × ℚ)) :
    (List.foldr (fun (p : ℚ × ℚ) acc => p.1 :: p.2 :: acc) [] verts).length =
      2 * verts.length := by
  induction verts with
  | nil => rfl
  | cons p vs ih =>
    show (p.1 :: p.2 :: _).length = _
    simp only [List.length_cons, ih]
    omega

theorem pairUpT_flatVerts (verts : List (ℚ × ℚ)) :
    pairUpT (List.foldr (fun (p : ℚ × ℚ) acc => p.1 :: p.2 :: acc) [] verts) = verts := by
  induction verts with
  | nil => rfl
  | cons p vs ih =>
    show pairUpT (p.1 :: p.2 :: _) = _
    rw [pairUpT, ih]

/-- Parsing the serialized line of a well-formed integer-coordinate record
appends exactly that record's item and nothing else. -/
theorem parseLineMain_record (st : PState) (r : GRecord)
    (hint : ∀ q ∈ recCoords r, q.den = 1) (hwf : polyWF r) :
    parseLineMain st (recLineSpec r) = { st with items := st.items ++ [itemOfRec r] } := by
  have hf := floats?_recLineSpec r hint
  cases r with
  | point x y =>
    have hc : recCoords (.point x y) = [x, y] := rfl
    rw [hc] at hf
    simp only [parseLineMain, hf]
    rfl
  | segment x1 y1 x2 y2 =>
    have hc : recCoords (.segment x1 y1 x2 y2) = [x1, y1, x2, y2] := rfl
    rw [hc] at hf
    simp only [parseLineMain, hf]
    rfl
  | polygon verts =>
    obtain ⟨p1, p2, p3, vs, rfl⟩ :
        ∃ p1 p2 p3 vs, verts = p1 :: p2 :: p3 :: vs := by
      match verts, hwf with
      | v1 :: v2 :: v3 :: vs, _ => exact ⟨v1, v2, v3, vs, rfl⟩
    have hc : recCoords (.polygon (p1 :: p2 :: p3 :: vs)) =
        p1.1 :: p1.2 :: p2.1 :: p2.2 :: p3.1 :: p3.2 ::
          List.foldr (fun (p : ℚ × ℚ) acc => p.1 :: p.2 :: acc) [] vs := rfl
    rw [hc] at hf
    simp only [parseLineMain, hf]
    have hlen : (p1.1 :: p1.2 :: p2.1 :: p2.2 :: p3.1 :: p3.2 ::
        List.foldr (fun (p : ℚ × ℚ) acc => p.1 :: p.2 :: acc) [] vs).length =
        6 + 2 * vs.length := by
      simp only [List.length_cons, flatVerts_length]
      omega
    rw [if_pos (by rw [hlen]; omega)]
    have hp : pairUpT (p1.1 :: p1.2 :: p2.1 :: p2.2 :: p3.1 :: p3.2 ::
        List.foldr (fun (p : ℚ × ℚ) acc => p.1 :: p.2 :: acc) [] vs) =
        p1 :: p2 :: p3 :: vs := by
      show pairUpT
        (List.foldr (fun (p : ℚ × ℚ) acc => p.1 :: p.2 :: acc) [] (p1 :: p2 :: p3 :: vs)) = _
      exact pairUpT_flatVerts _
    rw [hp]
    rfl

/-- Folding the parser over serialized record lines appends exactly the
records' items, in line order, with no diagnostics. -/
theorem parseMainAll_records (rs : List GRecord) (st : PState)
    (h : ∀ r ∈ rs, (∀ q ∈ recCoords r, q.den = 1) ∧ polyWF r) :
    parseMainAll st (rs.map recLineSpec) = { st with items := st.items ++ rs.map itemOfRec } := by
  induction rs generalizing st with
  | nil => simp [parseMainAll]
  | cons r rs ih =>
    obtain ⟨hint, hwf⟩ := h r (List.mem_cons_self r rs)
    have hrs : ∀ u ∈ rs, (∀ q ∈ recCoords u, q.den = 1) ∧ polyWF u :=
      fun u hu => h u (List.mem_cons_of_mem r hu)
    show parseMainAll (parseLineMain st (recLineSpec r)) (rs.map recLineSpec) = _
    rw [parseLineMain_record st r hint hwf, ih _ hrs]
    simp

theorem zOf_itemOfRec (r : GRecord) : zOf (itemOfRec r) = 0 := by
  cases r <;> rfl

theorem sceneItemsTopFirst_all_z0 (scene : List SceneItem) (h : ∀ i ∈ scene, zOf i = 0) :
    sceneItemsTopFirst scene = scene.reverse := by
  rw [sceneItemsTopFirst]
  have h0 : (scene.filter fun i => zOf i = 0) = scene :=
    List.filter_eq_self.mpr fun i hi => by simp [h i hi]
  have h1 : (scene.filter fun i => zOf i = -1) = [] :=
    List.filter_eq_nil_iff.mpr fun i hi => by simp [h i hi]
  rw [h0, h1]
  simp

/-- Shared helper: serializing the scene of a pure record store yields one
spec-format line per record, in reverse store order. -/
theorem save_storeScene (store : List GRecord) :
    save_file_lines (storeScene store) = (store.reverse).map recLineSpec := by
  rw [save_file_lines, sceneItemsTopFirst_all_z0]
  · rw [storeScene, ← List.map_reverse, List.filterMap_map]
    have hfn : (itemLine? ∘ itemOfRec) = fun r => some (recLineSpec r) := by
      funext r
      exact itemLine?_itemOfRec r
    rw [hfn]
    exact List.filterMap_eq_map recLineSpec ▸ rfl
  · intro i hi
    obtain ⟨r, -, rfl⟩ := List.mem_map.mp hi
    exact zOf_itemOfRec r

/-! The `hadErrors` flag agrees with diagnostic accumulation. -/

theorem parseLineMain_inv (st : PState) (l : List Char) (h : validInv st) :
    validInv (parseLineMain st l) := by
  rw [parseLineMain]
  split
  · simp [validInv]
  · split
    · exact h
    · exact h
    · split
      · exact h
      · simp [validInv]

theorem parseMainAll_inv (lines : List (List Char)) (st : PState) (h : validInv st) :
    validInv (parseMainAll st lines) := by
  induction lines generalizing st with
  | nil => exact h
  | cons l ls ih => exact ih _ (parseLineMain_inv st l h)

theorem parseLineGis_inv (st : PState) (l : List Char) (st' : PState)
    (he : parseLineGis st l = some st') (h : validInv st) : validInv st' := by
  rw [parseLineGis] at he
  split at he
  · cases he
    simp [validInv]
  · split at he
    · cases he
      exact h
    · cases he
      exact h
    · split at he
      · rcases hp : pairUp? _ with - | pts
        · rw [hp] at he
          simp at he
        · rw [hp] at he
          simp at he
          rw [← he]
          exact h
      · cases he
        simp [validInv]

theorem parseGisAll_inv (lines : List (List Char)) (st st' : PState)
    (he : parseGisAll st lines = some st') (h : validInv st) : validInv st' := by
  induction lines generalizing st with
  | nil =>
    cases he
    exact h
  | cons l ls ih =>
    rw [parseGisAll] at he
    split at he
    · exact absurd he (by simp)
    · next st1 heq => exact ih st1 he (parseLineGis_inv st l st1 heq h)

/-- A line with a failing token makes the whole float conversion raise. -/
theorem floats?_eq_none (ts : List (List Char)) (h : ∃ t ∈ ts, pyFloatCh t = none) :
    floats? ts = none := by
  induction ts with
  | nil => simp at h
  | cons t ts ih =>
    obtain ⟨u, hu, hnone⟩ := h
    rcases List.mem_cons.mp hu with rfl | hu'
    · simp [floats?, hnone]
    · rcases hv : pyFloatCh t with - | v
      · simp [floats?, hv]
      · simp [floats?, hv, ih ⟨u, hu', hnone⟩]

theorem selectableOf_setSelected (i : SceneItem) (b : Bool) :
    selectableOf (setSelected i b) = selectableOf i := by
  cases i <;> rfl

theorem selectedOf_setSelected (i : SceneItem) (b : Bool) :
    selectedOf (setSelected i b) = b := by
  cases i <;> rfl

theorem geom_item_facts (r : GRecord) (b : Bool) :
    isGridPen (setSelected (itemOfRec r) b) = false ∧
      zOf (setSelected (itemOfRec r) b) = 0 ∧
      selectableOf (setSelected (itemOfRec r) b) = true := by
  cases r <;> exact ⟨rfl, rfl, rfl⟩

theorem grid_item_facts (x1 y1 x2 y2 : ℚ) (b : Bool) :
    isGridPen (setSelected (grid_line_item x1 y1 x2 y2) b) = true ∧
      zOf (setSelected (grid_line_item x1 y1 x2 y2) b) = -1 ∧
      selectableOf (setSelected (grid_line_item x1 y1 x2 y2) b) = false ∧
      itemLine? (setSelected (grid_line_item x1 y1 x2 y2) b) = none :=
  ⟨rfl, rfl, rfl, rfl⟩

/-- Claim C1 (code bug in desktopgis/gis_app.py): on the all-numeric 7-token
line "1 2 3 4 5 6 7", the gis_app.py parser dispatches to `drawPolygon`
(its polygon arm checks only `len(coords) >= 6`, not evenness) and the
pairing comprehension raises IndexError, producing neither a record nor a
diagnostic and aborting the parse; the src/main.py parser on the same line
produces no record and exactly one InvalidTokenCount diagnostic, as the
claim states. -/
theorem C1_gis_odd_count_crash :
    parseGisAll pst0 [("1 2 3 4 5 6 7").toList] = none ∧
      parse_data_main [("1 2 3 4 5 6 7").toList] pst0 =
        (⟨[], [⟨.invalidTokenCount, ("1 2 3 4 5 6 7").toList⟩], false⟩, true) := by
  constructor
  · decide
  · decide

/-- Claim C2 (code bug in desktopgis/gis_app.py): a single malformed line
can abort the whole parse there.  On the input lines "1 2",
"1 2 3 4 5 6 7", "3 4", the gis_app.py loop raises IndexError at the second
line, so the third line is never parsed (the whole load aborts through the
blanket `except` in `loadFile`); the src/main.py parser processes all three
lines, producing two point items and exactly one diagnostic for the middle
line, as the claim states. -/
theorem C2_gis_line_aborts_parse :
    parseGisAll pst0
        [("1 2").toList, ("1 2 3 4 5 6 7").toList, ("3 4").toList] = none ∧
      (parseMainAll pst0
          [("1 2").toList, ("1 2 3 4 5 6 7").toList, ("3 4").toList]).items.length = 2 ∧
      (parseMainAll pst0
          [("1 2").toList, ("1 2 3 4 5 6 7").toList, ("3 4").toList]).msgs =
        [⟨.invalidTokenCount, ("1 2 3 4 5 6 7").toList⟩] := by
  refine ⟨by decide, by decide, by decide⟩

/-- Claim C5: the serialized line of every record renders each coordinate as
its truncation toward zero, in the claimed per-shape format (`recLineSpec`
is written from the spec's format clause; `itemLine?` is the embedding of
the save path). -/
theorem C5_record_line_format (r : GRecord) :
    itemLine? (itemOfRec r) = some (recLineSpec r) :=
  itemLine?_itemOfRec r

/-- Claim C8: a failed file read or an empty line list makes the load return
before any mutation: the scene (store and displayed content) is untouched
and only a status message is produced. -/
theorem C8_aborted_load_preserves_scene (st : AppState) :
    (load_file (.error ()) st).scene = st.scene ∧
      (load_file (.error ()) st).status = some .ioError ∧
      (load_file (.ok []) st).scene = st.scene ∧
      (load_file (.ok []) st).status = some .emptyFile := by
  refine ⟨rfl, rfl, ?_, ?_⟩ <;> simp [load_file]

/-- Claim C4 counterexample: the store holding Point(100,100) then
Segment(200,200,300,300) serializes to the segment line before the point
line - reverse store order, exactly as `test_save_file` expects - so the
claimed store-order output is false. -/
theorem C4_counterexample :
    save_file_lines (storeScene storeTwo) ≠ storeTwo.map recLineSpec ∧
      save_file_lines (storeScene storeTwo) =
        [("200 200 300 300").toList, ("100 100").toList] := by
  have hs := save_storeScene storeTwo
  constructor
  · rw [hs]
    decide
  · rw [hs]
    decide

/-- Claim C4 (amended): serialize emits exactly one line per record, but in
reverse store order - `scene.items()` iterates the items topmost-first,
which among the equal-z geometry items is reverse insertion order. -/
theorem C4_one_line_per_record_reversed (store : List GRecord) :
    save_file_lines (storeScene store) = (store.reverse).map recLineSpec :=
  save_storeScene store

/-- Claim C3 counterexample: serializing the integer store
[Point(1,2), Segment(3,4,5,6)] and re-parsing yields the records in the
opposite order, so the round trip does not reproduce the original
sequence. -/
theorem C3_counterexample :
    (parseMainAll pst0 (save_file_lines (storeScene storeCex))).items ≠
        storeScene storeCex ∧
      (parseMainAll pst0 (save_file_lines (storeScene storeCex))).items =
        storeScene [.segment 3 4 5 6, .point 1 2] := by
  have key : parseMainAll pst0 (save_file_lines (storeScene storeCex)) =
      { pst0 with items := pst0.items ++ (storeCex.reverse).map itemOfRec } := by
    rw [save_storeScene]
    exact parseMainAll_records _ _ (by decide)
  constructor
  · rw [key]
    decide
  · rw [key]
    rfl

/-- Claim C3 (amended): for every store of well-formed records with
integer-valued coordinates, serializing and re-parsing the output yields
exactly the original records (as scene items, compared exactly) in REVERSE
store order, with zero diagnostics and hadErrors false. -/
theorem C3_roundtrip_reversed (store : List GRecord)
    (hint : ∀ r ∈ store, intRec r) (hwf : ∀ r ∈ store, polyWF r) :
    parse_data_main (save_file_lines (storeScene store)) pst0 =
      (⟨(store.reverse).map itemOfRec, [], true⟩, false) := by
  have key : parseMainAll pst0 (save_file_lines (storeScene store)) =
      { pst0 with items := pst0.items ++ (store.reverse).map itemOfRec } := by
    rw [save_storeScene]
    refine parseMainAll_records _ _ ?_
    intro r hr
    exact ⟨hint r (List.mem_reverse.mp hr), hwf r (List.mem_reverse.mp hr)⟩
  show (parseMainAll pst0 (save_file_lines (storeScene store)),
      !(parseMainAll pst0 (save_file_lines (storeScene store))).allValid) = _
  rw [key]
  rfl

/-- Claim C3 witness: the amended round trip at a concrete integer store. -/
theorem C3_witness :
    (∀ r ∈ ([.point 1 2, .polygon [(0, 0), (4, 0), (2, 3)]] : List GRecord), intRec r) ∧
      (∀ r ∈ ([.point 1 2, .polygon [(0, 0), (4, 0), (2, 3)]] : List GRecord), polyWF r) ∧
      parse_data_main
          (save_file_lines (storeScene [.point 1 2, .polygon [(0, 0), (4, 0), (2, 3)]]))
          pst0 =
        (⟨([.point 1 2, .polygon [(0, 0), (4, 0), (2, 3)]] : List GRecord).reverse.map itemOfRec,
          [], true⟩, false) :=
  ⟨by decide, by decide,
    C3_roundtrip_reversed [.point 1 2, .polygon [(0, 0), (4, 0), (2, 3)]]
      (by decide) (by decide)⟩

/-- Claim C6: for every (non-empty) input, the flag `parse_data` returns
(`not all_data_valid`, bound as `partial_success` by the caller) is true
exactly when the accumulated message list is non-empty; the same holds for
the gis_app.py parser whenever it completes. -/
theorem C6_hadErrors_iff_diagnostics (lines : List (List Char)) (scene0 : List SceneItem)
    (hne : lines ≠ []) :
    ((parse_data_main lines ⟨scene0, [], true⟩).2 = true ↔
        (parse_data_main lines ⟨scene0, [], true⟩).1.msgs ≠ []) ∧
      ∀ st', parseGisAll ⟨scene0, [], true⟩ lines = some st' →
        ((!st'.allValid) = true ↔ st'.msgs ≠ []) := by
  have key : ∀ st : PState, validInv st → ((!st.allValid) = true ↔ st.msgs ≠ []) := by
    intro st hst
    rw [validInv] at hst
    constructor
    · intro hb hmsgs
      rw [hst.mpr hmsgs] at hb
      simp at hb
    · intro hmsgs
      rcases hb : st.allValid with - | -
      · rfl
      · exact absurd (hst.mp hb) hmsgs
  have h0 : validInv ⟨scene0, [], true⟩ := by simp [validInv]
  constructor
  · exact key _ (parseMainAll_inv lines _ h0)
  · intro st' he
    exact key st' (parseGisAll_inv lines _ st' he h0)

/-- Claim C6 witness: one all-numeric 3-token line yields hadErrors true and
one diagnostic, in both parsers. -/
theorem C6_witness :
    ([("1 2 3").toList] : List (List Char)) ≠ [] ∧
      (((parse_data_main [("1 2 3").toList] ⟨[], [], true⟩).2 = true ↔
          (parse_data_main [("1 2 3").toList] ⟨[], [], true⟩).1.msgs ≠ []) ∧
        ∀ st', parseGisAll ⟨[], [], true⟩ [("1 2 3").toList] = some st' →
          ((!st'.allValid) = true ↔ st'.msgs ≠ [])) :=
  ⟨by decide, C6_hadErrors_iff_diagnostics [("1 2 3").toList] [] (by decide)⟩

/-- Claim C7: a line with any token that fails float conversion contributes
no record and exactly one NonNumericToken diagnostic whose text is the line
stripped of surrounding whitespace - in both parsers. -/
theorem C7_nonnumeric_line_one_diagnostic (st : PState) (line : List Char)
    (h : ∃ t ∈ tokensCh line, pyFloatCh t = none) :
    parseLineMain st line =
        { st with msgs := st.msgs ++ [⟨.nonNumericToken, trimCh line⟩], allValid := false } ∧
      parseLineGis st line =
        some
          { st with msgs := st.msgs ++ [⟨.nonNumericToken, trimCh line⟩], allValid := false } := by
  have hf := floats?_eq_none _ h
  constructor
  · rw [parseLineMain, hf]
  · rw [parseLineGis, hf]

/-- Claim C7 witness: the line " 12 x7 " at the empty state. -/
theorem C7_witness :
    (∃ t ∈ tokensCh ((" 12 x7 ").toList), pyFloatCh t = none) ∧
      (parseLineMain pst0 ((" 12 x7 ").toList) =
          { pst0 with msgs := pst0.msgs ++ [⟨.nonNumericToken, trimCh ((" 12 x7 ").toList)⟩], allValid := false } ∧
        parseLineGis pst0 ((" 12 x7 ").toList) =
          some
            { pst0 with msgs := pst0.msgs ++ [⟨.nonNumericToken, trimCh ((" 12 x7 ").toList)⟩], allValid := false }) :=
  ⟨by decide, C7_nonnumeric_line_one_diagnostic pst0 ((" 12 x7 ").toList) (by decide)⟩

/-- Claim C9: for every reachable scene (each item placed by a draw call or
by the grid overlay), the saved lines are exactly those of the non-grid
(geometry) items, and a grid-overlay line never contributes an output
line. -/
theorem C9_serialize_excludes_grid (scene : List SceneItem)
    (h : ∀ i ∈ scene, IsGeomItem i ∨ IsGridItem i) :
    save_file_lines scene =
        ((scene.filter fun i => !isGridPen i).reverse).filterMap itemLine? ∧
      ∀ i ∈ scene, IsGridItem i → itemLine? i = none := by
  constructor
  · rw [save_file_lines, sceneItemsTopFirst]
    have h0 : (scene.filter fun i => zOf i = 0) = (scene.filter fun i => !isGridPen i) := by
      refine List.filter_congr ?_
      intro i hi
      rcases h i hi with ⟨r, b, rfl⟩ | ⟨x1, x2, x3, x4, b, rfl⟩
      · obtain ⟨hg, hz, -⟩ := geom_item_facts r b
        simp [hg, hz]
      · obtain ⟨hg, hz, -, -⟩ := grid_item_facts x1 x2 x3 x4 b
        simp [hg, hz]
    have h1 : ((scene.filter fun i => zOf i = -1).reverse).filterMap itemLine? = [] := by
      refine List.filterMap_eq_nil_iff.mpr ?_
      intro i hi
      rw [List.mem_reverse] at hi
      have hmem := List.mem_filter.mp hi
      have hz := of_decide_eq_true hmem.2
      rcases h i hmem.1 with ⟨r, b, rfl⟩ | ⟨x1, x2, x3, x4, b, rfl⟩
      · exact absurd hz (by simp [(geom_item_facts r b).2.1])
      · exact (grid_item_facts x1 x2 x3 x4 b).2.2.2
    rw [List.filterMap_append, h0, h1, List.append_nil]
  · intro i hi hgrid
    obtain ⟨x1, x2, x3, x4, b, rfl⟩ := hgrid
    exact (grid_item_facts x1 x2 x3 x4 b).2.2.2

/-- Claim C9 witness: a scene of one grid line and one point item. -/
theorem C9_witness :
    (∀ i ∈ ([grid_line_item 0 0 800 0, itemOfRec (.point 1 2)] : List SceneItem),
        IsGeomItem i ∨ IsGridItem i) ∧
      (save_file_lines [grid_line_item 0 0 800 0, itemOfRec (.point 1 2)] =
          ((([grid_line_item 0 0 800 0, itemOfRec (.point 1 2)] : List SceneItem).filter
              fun i => !isGridPen i).reverse).filterMap itemLine? ∧
        ∀ i ∈ ([grid_line_item 0 0 800 0, itemOfRec (.point 1 2)] : List SceneItem),
          IsGridItem i → itemLine? i = none) := by
  have h : ∀ i ∈ ([grid_line_item 0 0 800 0, itemOfRec (.point 1 2)] : List SceneItem),
      IsGeomItem i ∨ IsGridItem i := by
    intro i hi
    rcases List.mem_cons.mp hi with rfl | hi
    · exact Or.inr ⟨0, 0, 800, 0, false, rfl⟩
    · rcases List.mem_cons.mp hi with rfl | hi
      · exact Or.inl ⟨.point 1 2, false, rfl⟩
      · simp at hi
  exact ⟨h, C9_serialize_excludes_grid _ h⟩

/-- Claim C10: under Qt's selection invariant (only selectable items can be
selected), grid-overlay items are never selectable, geometry items always
are, and the Delete interaction (removing exactly the selected items) keeps
every grid line in the scene. -/
theorem C10_delete_never_removes_grid (scene : List SceneItem)
    (hq : QtSelectionInv scene) :
    (∀ i ∈ scene, IsGridItem i → selectableOf i = false) ∧
      (∀ i ∈ scene, IsGeomItem i → selectableOf i = true) ∧
      ∀ i ∈ scene, IsGridItem i → i ∈ deleteSelected scene := by
  refine ⟨?_, ?_, ?_⟩
  · intro i hi hg
    obtain ⟨x1, x2, x3, x4, b, rfl⟩ := hg
    exact (grid_item_facts x1 x2 x3 x4 b).2.2.1
  · intro i hi hg
    obtain ⟨r, b, rfl⟩ := hg
    exact (geom_item_facts r b).2.2
  · intro i hi hg
    obtain ⟨x1, x2, x3, x4, b, rfl⟩ := hg
    have hsel : selectableOf (setSelected (grid_line_item x1 x2 x3 x4) b) = false :=
      (grid_item_facts x1 x2 x3 x4 b).2.2.1
    have hnotsel : selectedOf (setSelected (grid_line_item x1 x2 x3 x4) b) = false := by
      rcases hb : selectedOf (setSelected (grid_line_item x1 x2 x3 x4) b) with - | -
      · rfl
      · exact absurd (hq _ hi hb) (by simp [hsel])
    exact List.mem_filter.mpr ⟨hi, by simp [hnotsel]⟩

/-- Claim C10 witness: a selected point item next to a grid line. -/
theorem C10_witness :
    QtSelectionInv [setSelected (itemOfRec (.point 1 2)) true, grid_line_item 0 0 0 600] ∧
      ((∀ i ∈ ([setSelected (itemOfRec (.point 1 2)) true,
            grid_line_item 0 0 0 600] : List SceneItem),
          IsGridItem i → selectableOf i = false) ∧
        (∀ i ∈ ([setSelected (itemOfRec (.point 1 2)) true,
            grid_line_item 0 0 0 600] : List SceneItem),
          IsGeomItem i → selectableOf i = true) ∧
        ∀ i ∈ ([setSelected (itemOfRec (.point 1 2)) true,
            grid_line_item 0 0 0 600] : List SceneItem),
          IsGridItem i →
            i ∈ deleteSelected [setSelected (itemOfRec (.point 1 2)) true,
              grid_line_item 0 0 0 600]) := by
  have hq : QtSelectionInv [setSelected (itemOfRec (.point 1 2)) true,
      grid_line_item 0 0 0 600] := by
    intro i hi hb
    rcases List.mem_cons.mp hi with rfl | hi
    · rfl
    · rcases List.mem_cons.mp hi with rfl | hi
      · exact absurd hb (by decide)
      · simp at hi
  exact ⟨hq, C10_delete_never_removes_grid _ hq⟩
